import Mathlib

/-!
Verification of the payments-engine ledger core against its specification.

The development shallowly embeds the Rust sources:
  * `src/dto.rs`    — `Transaction`, `TransactionType`
  * `src/domain.rs` — `CashFlow`, `CashFlowType`, `Account` and its operations
  * `src/validator.rs` — `validate_transactions`
  * `src/engine.rs` — `register_transactions_for_customers`, `handle_dispute`, `run`

`rust_decimal::Decimal` is embedded as a mantissa/scale pair whose value is an
exact rational; `HashMap` is embedded as an association list where `insert`
prepends and `lookup` takes the first matching key, which has exactly the
overwrite semantics of `HashMap::insert`/`get`.  Errors (`anyhow!`, the
engine's `Error` enum) are embedded as the structured type `VError`, one
constructor per distinct error message of the sources.
-/

namespace PaymentsEngine

/-- Embeds `rust_decimal::Decimal`: an integer mantissa with a decimal scale.
`dec!(1.12345)` is `⟨112345, 5⟩`; `Decimal::scale` is the stored scale. -/
structure Dcml where
  mantissa : Int
  scale : Nat
deriving DecidableEq

/-- Exact rational addition, written out on numerator/denominator pairs so
that concrete ledger states evaluate by kernel reduction (the library's
`Rat.add` is `@[irreducible]`); `addQ_eq` proves it is `+` on ℚ. -/
def addQ (a b : ℚ) : ℚ :=
  mkRat (a.num * b.den + b.num * a.den) (a.den * b.den)

/-- Exact rational subtraction; `subQ_eq` proves it is `-` on ℚ. -/
def subQ (a b : ℚ) : ℚ :=
  mkRat (a.num * b.den - b.num * a.den) (a.den * b.den)

theorem addQ_eq (a b : ℚ) : addQ a b = a + b := by
  rw [addQ, Rat.add_def, Rat.normalize_eq_mkRat]

theorem subQ_eq (a b : ℚ) : subQ a b = a - b := by
  rw [subQ, Rat.sub_def, Rat.normalize_eq_mkRat]

/-- The exact rational value of a decimal, `mantissa / 10 ^ scale`, used for
all comparisons and arithmetic (`rust_decimal` comparison and `+`/`-` are
exact on values); see `Dcml.value_eq_div`. -/
def Dcml.value (d : Dcml) : ℚ :=
  mkRat d.mantissa ((10 : Nat) ^ d.scale)

theorem Dcml.value_eq_div (d : Dcml) :
    d.value = (d.mantissa : ℚ) / (10 : ℚ) ^ d.scale := by
  rw [Dcml.value, Rat.mkRat_eq_divInt, Rat.divInt_eq_div]
  push_cast
  ring

/-- Embeds `dto::TransactionType`. -/
inductive TransactionType where
  | Deposit
  | Withdrawal
  | Dispute
  | Resolve
  | Chargeback
deriving DecidableEq

/-- Embeds `dto::Transaction` (one CSV record). -/
structure Transaction where
  type : TransactionType
  client : Nat
  tx : Nat
  amount : Option Dcml
deriving DecidableEq

/-- Embeds `domain::CashFlowType`. -/
inductive CashFlowType where
  | Deposit
  | Withdrawal
deriving DecidableEq

/-- Embeds `domain::CashFlow`; `amount` is kept as its exact rational value
(only `Transaction` amounts need the stored scale, for validation). -/
structure CashFlow where
  type : CashFlowType
  client : Nat
  tx : Nat
  amount : ℚ
  under_dispute : Bool
deriving DecidableEq

/-- Structured form of the run's error values, one constructor per distinct
error produced by the sources:
`notUnique` = "Transaction ids are not unique!" (validator.rs),
`generic` = the `anyhow!("a generic error ...")` cases,
`missingAmount tx` = "tx {tx}: value is missing",
`negativeAmount tx` = "tx {tx}: has a negative value",
`unsupportedScale tx` = "tx {tx}: has a unsupported scale",
`operationNotAllowed` = `Error::OperationNotAllowedError`. -/
inductive VError where
  | notUnique
  | generic
  | missingAmount (tx : Nat)
  | negativeAmount (tx : Nat)
  | unsupportedScale (tx : Nat)
  | operationNotAllowed
deriving DecidableEq

/-- Embeds `CashFlow::try_from(&Transaction)` (domain.rs:31-62): accepts a
deposit/withdrawal whose amount is present, ≥ 0 and of scale ≤ 4; otherwise
reports the scale error first, then the negative error, then the missing
error, exactly in the source's match-arm order. -/
def CashFlow.try_from (t : Transaction) : Except VError CashFlow :=
  match t.amount with
  | some v =>
    if 0 ≤ v.value ∧ v.scale ≤ 4 then
      match t.type with
      | TransactionType.Deposit =>
        Except.ok { type := CashFlowType.Deposit, client := t.client, tx := t.tx,
                    amount := v.value, under_dispute := false }
      | TransactionType.Withdrawal =>
        Except.ok { type := CashFlowType.Withdrawal, client := t.client, tx := t.tx,
                    amount := v.value, under_dispute := false }
      | _ => Except.error VError.generic
    else if 4 < v.scale then Except.error (VError.unsupportedScale t.tx)
    else Except.error (VError.negativeAmount t.tx)
  | none => Except.error (VError.missingAmount t.tx)

/-- Embeds `domain::Account`. -/
structure Account where
  client : Nat
  available : ℚ
  held : ℚ
  total : ℚ
  locked : Bool
deriving DecidableEq

/-- `Account::default().client(c)` (engine.rs:56): a fresh zero-balance,
unlocked account for client `c`. -/
def Account.init (c : Nat) : Account :=
  { client := c, available := 0, held := 0, total := 0, locked := false }

/-- Embeds `Account::deposit` (domain.rs:81-94). -/
def Account.deposit (a : Account) (cf : CashFlow) : Except VError Account :=
  match cf.type with
  | CashFlowType.Deposit =>
    Except.ok { a with available := addQ a.available cf.amount,
                       total := addQ (addQ a.available cf.amount) a.held }
  | _ => Except.error VError.operationNotAllowed

/-- Embeds `Account::withdraw` (domain.rs:96-118): a withdrawal exceeding the
available funds is logged and ignored, not an error. -/
def Account.withdraw (a : Account) (cf : CashFlow) : Except VError Account :=
  match cf.type with
  | CashFlowType.Withdrawal =>
    if cf.amount ≤ a.available then
      Except.ok { a with available := subQ a.available cf.amount,
                         total := addQ (subQ a.available cf.amount) a.held }
    else Except.ok a
  | _ => Except.error VError.operationNotAllowed

/-- Embeds `Account::dispute` (domain.rs:120-125); the cash flow itself is not
modified (the method takes `&CashFlow`). -/
def Account.dispute (a : Account) (cf : CashFlow) : Account :=
  { a with available := subQ a.available cf.amount, held := addQ a.held cf.amount }

/-- Embeds `Account::resolve` (domain.rs:127-131). -/
def Account.resolve (a : Account) (cf : CashFlow) : Account :=
  { a with held := subQ a.held cf.amount, available := addQ a.available cf.amount }

/-- Embeds `Account::chargeback` (domain.rs:133-141): locks the account and
removes the amount from `held` and `total`. -/
def Account.chargeback (a : Account) (cf : CashFlow) : Account :=
  { a with locked := true, held := subQ a.held cf.amount, total := subQ a.total cf.amount }

/-- Modelled from the spec: `Account::insert`, called by the engine for
deposit/withdrawal cash flows (engine.rs:67), is absent from the sources
(only its caller is).  Per the spec's transition table it applies the cash
flow by its kind — a Deposit adds to `available`, a Withdrawal subtracts when
covered and is otherwise a silent no-op, recomputing `total = available +
held` — which is exactly dispatching to the source's `Account::deposit` /
`Account::withdraw` on the cash flow's own kind (those methods reject the
other kind, so the dispatch never hits their error arm). -/
def Account.insert (a : Account) (cf : CashFlow) : Account :=
  match cf.type with
  | CashFlowType.Deposit =>
    match a.deposit cf with
    | Except.ok a2 => a2
    | Except.error _ => a
  | CashFlowType.Withdrawal =>
    match a.withdraw cf with
    | Except.ok a2 => a2
    | Except.error _ => a

/-- `HashMap` insert: prepend; `List.lookup` takes the first hit, so a later
insert of the same key overwrites the earlier entry, as in Rust. -/
def mapInsert {α : Type} (m : List (Nat × α)) (k : Nat) (v : α) : List (Nat × α) :=
  (k, v) :: m

/-- The engine's mutable state: `accounts: HashMap<u16, Account>` and
`cash_flows_hm: HashMap<u32, CashFlow>` (engine.rs:41,50). -/
structure EState where
  accounts : List (Nat × Account)
  cashFlows : List (Nat × CashFlow)
deriving DecidableEq

/-- `accounts.entry(tx.client).or_insert(Account::default().client(tx.client))`
(engine.rs:54-56), read as a value: the client's account, or a fresh one. -/
def acctOf (s : EState) (c : Nat) : Account :=
  (List.lookup c s.accounts).getD (Account.init c)

/-- The filter `t.type == Deposit || t.type == Withdrawal` shared by
validator.rs:10 and engine.rs:46. -/
def isDW (t : Transaction) : Bool :=
  t.type == TransactionType.Deposit || t.type == TransactionType.Withdrawal

/-- Embeds `handle_dispute` (engine.rs:108-137): applies `f` (resolve or
chargeback) to the event's account when the referenced cash flow exists,
belongs to the event's client and is under dispute; otherwise warns and
leaves the state alone.  `accounts1` is the account table after the
`entry().or_insert()` of the caller; `f` only mutates the account, so the
cash-flow table is returned unchanged (as in the source, where the closures
only touch `account`). -/
def handle_dispute (s : EState) (accounts1 : List (Nat × Account)) (account : Account)
    (t : Transaction) (f : Account → CashFlow → Account) : Except VError EState :=
  match List.lookup t.tx s.cashFlows with
  | some cf =>
    if cf.client = t.client ∧ cf.under_dispute = true then
      Except.ok { accounts := mapInsert accounts1 t.client (f account cf),
                  cashFlows := s.cashFlows }
    else
      Except.ok { accounts := accounts1, cashFlows := s.cashFlows }
  | none => Except.ok { accounts := accounts1, cashFlows := s.cashFlows }

/-- One iteration of the event loop of `register_transactions_for_customers`
(engine.rs:53-103): materialize the client's account entry, skip everything
when it is locked, and otherwise branch on the event kind.  The Dispute arm
(engine.rs:72-92) applies `account.dispute(cf)` when the cash flow exists
with the event's client and is not yet disputed; note that, as in the source,
no arm ever writes to the cash-flow table — `under_dispute` is never set. -/
def step (s : EState) (t : Transaction) : Except VError EState :=
  let account := acctOf s t.client
  let accounts1 := mapInsert s.accounts t.client account
  if account.locked = true then
    Except.ok { accounts := accounts1, cashFlows := s.cashFlows }
  else
    match t.type with
    | TransactionType.Deposit | TransactionType.Withdrawal =>
      match List.lookup t.tx s.cashFlows with
      | some cf =>
        Except.ok { accounts := mapInsert accounts1 t.client (account.insert cf),
                    cashFlows := s.cashFlows }
      | none => Except.error VError.generic
    | TransactionType.Dispute =>
      match List.lookup t.tx s.cashFlows with
      | some cf =>
        if cf.client = t.client ∧ cf.under_dispute = false then
          Except.ok { accounts := mapInsert accounts1 t.client (account.dispute cf),
                      cashFlows := s.cashFlows }
        else
          Except.ok { accounts := accounts1, cashFlows := s.cashFlows }
      | none => Except.ok { accounts := accounts1, cashFlows := s.cashFlows }
    | TransactionType.Resolve => handle_dispute s accounts1 account t Account.resolve
    | TransactionType.Chargeback => handle_dispute s accounts1 account t Account.chargeback

/-- `cash_flows.into_iter().map(|cf| (cf.tx, cf)).collect::<HashMap<_,_>>()`
(engine.rs:50-51): key each cash flow by its `tx`, later entries overwriting
earlier ones. -/
def buildHm (cfs : List CashFlow) : List (Nat × CashFlow) :=
  cfs.foldl (fun m cf => mapInsert m cf.tx cf) []

/-- Embeds `register_transactions_for_customers` (engine.rs:38-106): convert
every deposit/withdrawal to a cash flow (failing fast on a bad amount, before
any account exists), key them by `tx`, then fold the event loop over the full
input.  The source finally projects `accounts.into_values()` into response
rows in unspecified `HashMap` order; we return the account table itself,
which carries the same per-client data. -/
def register_transactions_for_customers (ts : List Transaction) :
    Except VError (List (Nat × Account)) :=
  match (ts.filter isDW).mapM CashFlow.try_from with
  | Except.error e => Except.error e
  | Except.ok cash_flows =>
    match List.foldlM step { accounts := [], cashFlows := buildHm cash_flows } ts with
    | Except.error e => Except.error e
    | Except.ok final => Except.ok final.accounts

/-- Embeds `validate_transactions` (validator.rs:7-24): among the
deposit/withdrawal events, the number of distinct `tx` values (the `HashSet`
size, here `dedup.length`) must equal the number of such events. -/
def validate_transactions (ts : List Transaction) : Except VError Unit :=
  let deposits_and_withdrawals := ts.filter isDW
  if ((deposits_and_withdrawals.map (fun t => t.tx)).dedup).length ≠
      deposits_and_withdrawals.length then
    Except.error VError.notUnique
  else Except.ok ()

/-- Embeds `run` (engine.rs:12-36) minus the CSV adapters (out of the spec's
core): validate the whole batch first and only then run the engine, so a
validation failure produces no account table at all. -/
def run (ts : List Transaction) : Except VError (List (Nat × Account)) :=
  match validate_transactions ts with
  | Except.error e => Except.error e
  | Except.ok _ => register_transactions_for_customers ts

/-! ### Map and fold helper lemmas -/

instance {ε α : Type} [DecidableEq ε] [DecidableEq α] : DecidableEq (Except ε α)
  | Except.ok x, Except.ok y =>
    if h : x = y then isTrue (congrArg Except.ok h)
    else isFalse (fun hc => h (Except.ok.inj hc))
  | Except.error x, Except.error y =>
    if h : x = y then isTrue (congrArg Except.error h)
    else isFalse (fun hc => h (Except.error.inj hc))
  | Except.ok _, Except.error _ => isFalse (fun hc => Except.noConfusion hc)
  | Except.error _, Except.ok _ => isFalse (fun hc => Except.noConfusion hc)

theorem lookup_mapInsert {α : Type} (c k : Nat) (v : α) (m : List (Nat × α)) :
    List.lookup c (mapInsert m k v) = if c = k then some v else List.lookup c m := by
  by_cases h : c = k
  · simp [mapInsert, List.lookup, h]
  · have hb : (c == k) = false := by simpa using h
    simp [mapInsert, List.lookup, hb, h]

theorem lookup_mapInsert_self {α : Type} (k : Nat) (v : α) (m : List (Nat × α)) :
    List.lookup k (mapInsert m k v) = some v := by
  simp [lookup_mapInsert]

theorem lookup_mapInsert_ne {α : Type} {c k : Nat} (h : c ≠ k) (v : α) (m : List (Nat × α)) :
    List.lookup c (mapInsert m k v) = List.lookup c m := by
  simp [lookup_mapInsert, h]

/-! ### The balance invariant (claim C1) -/

/-- The spec's standing invariant, on an account table: every account ever
recorded satisfies `total = available + held`. -/
def BalList (m : List (Nat × Account)) : Prop :=
  ∀ c a, List.lookup c m = some a → a.total = a.available + a.held

/-- The spec's standing invariant on the whole engine state. -/
def BalInvariant (s : EState) : Prop :=
  BalList s.accounts

theorem balList_nil : BalList [] := by
  intro c a h
  simp [List.lookup] at h

theorem balList_mapInsert {m : List (Nat × Account)} {k : Nat} {a : Account}
    (hm : BalList m) (ha : a.total = a.available + a.held) :
    BalList (mapInsert m k a) := by
  intro c b hb
  rw [lookup_mapInsert] at hb
  split at hb
  · cases hb
    exact ha
  · exact hm c b hb

theorem acctOf_bal {s : EState} (h : BalInvariant s) (c : Nat) :
    (acctOf s c).total = (acctOf s c).available + (acctOf s c).held := by
  unfold acctOf
  cases hl : List.lookup c s.accounts with
  | none => simp [Account.init]
  | some a => simpa using h c a hl

theorem Account.insert_bal (a : Account) (cf : CashFlow)
    (h : a.total = a.available + a.held) :
    (a.insert cf).total = (a.insert cf).available + (a.insert cf).held := by
  obtain ⟨cft, cc, ctx, ca, cd⟩ := cf
  cases cft
  · show addQ (addQ a.available ca) a.held = addQ a.available ca + a.held
    rw [addQ_eq]
  · by_cases hle : ca ≤ a.available
    · simp only [Account.insert, Account.withdraw, if_pos hle, addQ_eq, subQ_eq]
    · simp only [Account.insert, Account.withdraw, if_neg hle]
      exact h

theorem Account.dispute_bal (a : Account) (cf : CashFlow)
    (h : a.total = a.available + a.held) :
    (a.dispute cf).total = (a.dispute cf).available + (a.dispute cf).held := by
  simp only [Account.dispute, addQ_eq, subQ_eq]
  rw [h]
  ring

theorem Account.resolve_bal (a : Account) (cf : CashFlow)
    (h : a.total = a.available + a.held) :
    (a.resolve cf).total = (a.resolve cf).available + (a.resolve cf).held := by
  simp only [Account.resolve, addQ_eq, subQ_eq]
  rw [h]
  ring

theorem Account.chargeback_bal (a : Account) (cf : CashFlow)
    (h : a.total = a.available + a.held) :
    (a.chargeback cf).total = (a.chargeback cf).available + (a.chargeback cf).held := by
  simp only [Account.chargeback, addQ_eq, subQ_eq]
  rw [h]
  ring

theorem step_bal {s : EState} {t : Transaction} {s' : EState}
    (h : BalInvariant s) (hs : step s t = Except.ok s') : BalInvariant s' := by
  obtain ⟨ty, tc, ttx, tam⟩ := t
  have hacc := acctOf_bal h tc
  have h1 : BalList (mapInsert s.accounts tc (acctOf s tc)) :=
    balList_mapInsert h hacc
  cases ty
  case Deposit =>
    simp only [step] at hs
    split at hs
    · injection hs with hs
      subst hs
      exact h1
    · cases hcf : List.lookup ttx s.cashFlows <;> simp only [hcf] at hs
      · exact Except.noConfusion hs
      · injection hs with hs
        subst hs
        exact balList_mapInsert h1 (Account.insert_bal _ _ hacc)
  case Withdrawal =>
    simp only [step] at hs
    split at hs
    · injection hs with hs
      subst hs
      exact h1
    · cases hcf : List.lookup ttx s.cashFlows <;> simp only [hcf] at hs
      · exact Except.noConfusion hs
      · injection hs with hs
        subst hs
        exact balList_mapInsert h1 (Account.insert_bal _ _ hacc)
  case Dispute =>
    simp only [step] at hs
    split at hs
    · injection hs with hs
      subst hs
      exact h1
    · cases hcf : List.lookup ttx s.cashFlows <;> simp only [hcf] at hs
      · injection hs with hs
        subst hs
        exact h1
      · split at hs
        · injection hs with hs
          subst hs
          exact balList_mapInsert h1 (Account.dispute_bal _ _ hacc)
        · injection hs with hs
          subst hs
          exact h1
  case Resolve =>
    simp only [step, handle_dispute] at hs
    split at hs
    · injection hs with hs
      subst hs
      exact h1
    · cases hcf : List.lookup ttx s.cashFlows <;> simp only [hcf] at hs
      · injection hs with hs
        subst hs
        exact h1
      · split at hs
        · injection hs with hs
          subst hs
          exact balList_mapInsert h1 (Account.resolve_bal _ _ hacc)
        · injection hs with hs
          subst hs
          exact h1
  case Chargeback =>
    simp only [step, handle_dispute] at hs
    split at hs
    · injection hs with hs
      subst hs
      exact h1
    · cases hcf : List.lookup ttx s.cashFlows <;> simp only [hcf] at hs
      · injection hs with hs
        subst hs
        exact h1
      · split at hs
        · injection hs with hs
          subst hs
          exact balList_mapInsert h1 (Account.chargeback_bal _ _ hacc)
        · injection hs with hs
          subst hs
          exact h1

theorem foldlM_step_nil (s : EState) : List.foldlM step s [] = Except.ok s := rfl

theorem foldlM_step_cons (s : EState) (t : Transaction) (ts : List Transaction) :
    List.foldlM step s (t :: ts) =
      match step s t with
      | Except.ok s1 => List.foldlM step s1 ts
      | Except.error e => Except.error e := by
  rw [List.foldlM_cons]
  cases step s t <;> rfl

theorem foldlM_bal (ts : List Transaction) :
    ∀ s s' : EState, BalInvariant s →
      List.foldlM step s ts = Except.ok s' → BalInvariant s' := by
  induction ts with
  | nil =>
    intro s s' h hfold
    rw [foldlM_step_nil] at hfold
    injection hfold with hfold
    subst hfold
    exact h
  | cons t ts ih =>
    intro s s' h hfold
    rw [foldlM_step_cons] at hfold
    cases hstep : step s t with
    | error e =>
      rw [hstep] at hfold
      exact Except.noConfusion hfold
    | ok s1 =>
      rw [hstep] at hfold
      exact ih s1 s' (step_bal h hstep) hfold

/-- Claim C1: for every input sequence and every account in the ledger state,
after each event is applied the account satisfies `total = available + held`
exactly (in exact rational arithmetic).  Stated as: the engine's starting
state satisfies the invariant whatever cash-flow table it carries, and the
event loop (`List.foldlM step`, the loop of
`register_transactions_for_customers`) preserves it across any list of
events, hence it holds after every prefix of any input. -/
theorem c1_total_eq_available_plus_held :
    (∀ cfm : List (Nat × CashFlow), BalInvariant { accounts := [], cashFlows := cfm }) ∧
    ∀ (ts : List Transaction) (s s' : EState), BalInvariant s →
      List.foldlM step s ts = Except.ok s' → BalInvariant s' := by
  constructor
  · intro cfm
    exact balList_nil
  · intro ts
    exact foldlM_bal ts

/-- Witness for C1: a concrete run of one deposit of 10 for client 1 from the
empty ledger; the hypotheses of `c1_total_eq_available_plus_held` are
discharged at this input and the resulting state (client 1 holding
available 10, held 0, total 10) satisfies the invariant. -/
theorem c1_total_eq_available_plus_held_witness :
    BalInvariant { accounts := [],
                   cashFlows := [(1, ⟨CashFlowType.Deposit, 1, 1, 10, false⟩)] } ∧
    BalInvariant { accounts := [(1, ⟨1, 10, 0, 10, false⟩), (1, Account.init 1)],
                   cashFlows := [(1, ⟨CashFlowType.Deposit, 1, 1, 10, false⟩)] } := by
  refine ⟨c1_total_eq_available_plus_held.1 _, ?_⟩
  exact c1_total_eq_available_plus_held.2
    [⟨TransactionType.Deposit, 1, 1, some ⟨10, 0⟩⟩]
    { accounts := [], cashFlows := [(1, ⟨CashFlowType.Deposit, 1, 1, 10, false⟩)] }
    _ (c1_total_eq_available_plus_held.1 _) (by decide)

/-! ### The account-lock gate (claim C3) -/

theorem Account.insert_locked (a : Account) (cf : CashFlow) :
    (a.insert cf).locked = a.locked := by
  obtain ⟨cft, cc, ctx, ca, cd⟩ := cf
  cases cft
  · rfl
  · by_cases hle : ca ≤ a.available
    · simp only [Account.insert, Account.withdraw, if_pos hle]
    · simp only [Account.insert, Account.withdraw, if_neg hle]

theorem acctOf_locked_cases {s : EState} {c : Nat} (h : (acctOf s c).locked = true) :
    ∃ a, List.lookup c s.accounts = some a ∧ a.locked = true := by
  cases hla : List.lookup c s.accounts with
  | none =>
    exfalso
    rw [acctOf, hla] at h
    simp [Account.init] at h
  | some b =>
    refine ⟨b, rfl, ?_⟩
    rw [acctOf, hla] at h
    simpa using h

theorem step_locked (s : EState) (t : Transaction)
    (h : (acctOf s t.client).locked = true) :
    step s t = Except.ok { accounts := mapInsert s.accounts t.client (acctOf s t.client),
                           cashFlows := s.cashFlows } := by
  simp only [step, h, eq_self_iff_true, if_true]

/-- Shape of any successful `step`: the cash-flow table is untouched, accounts
of other clients are untouched, and the event's client ends up mapped to an
account obtained from its current one by at most one of the five account
operations (with a chargeback possible only on a Chargeback event). -/
theorem step_ok_cases {s : EState} {t : Transaction} {s' : EState}
    (hs : step s t = Except.ok s') :
    s'.cashFlows = s.cashFlows ∧
    (∀ c, c ≠ t.client → List.lookup c s'.accounts = List.lookup c s.accounts) ∧
    ∃ anew, List.lookup t.client s'.accounts = some anew ∧
      (anew = acctOf s t.client ∨
       (∃ cf, anew = (acctOf s t.client).insert cf) ∨
       (∃ cf, anew = (acctOf s t.client).dispute cf) ∨
       (∃ cf, anew = (acctOf s t.client).resolve cf) ∨
       (∃ cf, anew = (acctOf s t.client).chargeback cf ∧
          t.type = TransactionType.Chargeback)) := by
  obtain ⟨ty, tc, ttx, tam⟩ := t
  cases ty
  case Deposit =>
    simp only [step] at hs
    split at hs
    · injection hs with hs
      subst hs
      exact ⟨rfl, fun c hc => lookup_mapInsert_ne hc _ _,
        _, lookup_mapInsert_self _ _ _, Or.inl rfl⟩
    · cases hcf : List.lookup ttx s.cashFlows <;> simp only [hcf] at hs
      · exact Except.noConfusion hs
      · injection hs with hs
        subst hs
        refine ⟨rfl, fun c hc => ?_, _, lookup_mapInsert_self _ _ _,
          Or.inr (Or.inl ⟨_, rfl⟩)⟩
        rw [lookup_mapInsert_ne hc, lookup_mapInsert_ne hc]
  case Withdrawal =>
    simp only [step] at hs
    split at hs
    · injection hs with hs
      subst hs
      exact ⟨rfl, fun c hc => lookup_mapInsert_ne hc _ _,
        _, lookup_mapInsert_self _ _ _, Or.inl rfl⟩
    · cases hcf : List.lookup ttx s.cashFlows <;> simp only [hcf] at hs
      · exact Except.noConfusion hs
      · injection hs with hs
        subst hs
        refine ⟨rfl, fun c hc => ?_, _, lookup_mapInsert_self _ _ _,
          Or.inr (Or.inl ⟨_, rfl⟩)⟩
        rw [lookup_mapInsert_ne hc, lookup_mapInsert_ne hc]
  case Dispute =>
    simp only [step] at hs
    split at hs
    · injection hs with hs
      subst hs
      exact ⟨rfl, fun c hc => lookup_mapInsert_ne hc _ _,
        _, lookup_mapInsert_self _ _ _, Or.inl rfl⟩
    · cases hcf : List.lookup ttx s.cashFlows <;> simp only [hcf] at hs
      · injection hs with hs
        subst hs
        exact ⟨rfl, fun c hc => lookup_mapInsert_ne hc _ _,
          _, lookup_mapInsert_self _ _ _, Or.inl rfl⟩
      · split at hs
        · injection hs with hs
          subst hs
          refine ⟨rfl, fun c hc => ?_, _, lookup_mapInsert_self _ _ _,
            Or.inr (Or.inr (Or.inl ⟨_, rfl⟩))⟩
          rw [lookup_mapInsert_ne hc, lookup_mapInsert_ne hc]
        · injection hs with hs
          subst hs
          exact ⟨rfl, fun c hc => lookup_mapInsert_ne hc _ _,
            _, lookup_mapInsert_self _ _ _, Or.inl rfl⟩
  case Resolve =>
    simp only [step, handle_dispute] at hs
    split at hs
    · injection hs with hs
      subst hs
      exact ⟨rfl, fun c hc => lookup_mapInsert_ne hc _ _,
        _, lookup_mapInsert_self _ _ _, Or.inl rfl⟩
    · cases hcf : List.lookup ttx s.cashFlows <;> simp only [hcf] at hs
      · injection hs with hs
        subst hs
        exact ⟨rfl, fun c hc => lookup_mapInsert_ne hc _ _,
          _, lookup_mapInsert_self _ _ _, Or.inl rfl⟩
      · split at hs
        · injection hs with hs
          subst hs
          refine ⟨rfl, fun c hc => ?_, _, lookup_mapInsert_self _ _ _,
            Or.inr (Or.inr (Or.inr (Or.inl ⟨_, rfl⟩)))⟩
          rw [lookup_mapInsert_ne hc, lookup_mapInsert_ne hc]
        · injection hs with hs
          subst hs
          exact ⟨rfl, fun c hc => lookup_mapInsert_ne hc _ _,
            _, lookup_mapInsert_self _ _ _, Or.inl rfl⟩
  case Chargeback =>
    simp only [step, handle_dispute] at hs
    split at hs
    · injection hs with hs
      subst hs
      exact ⟨rfl, fun c hc => lookup_mapInsert_ne hc _ _,
        _, lookup_mapInsert_self _ _ _, Or.inl rfl⟩
    · cases hcf : List.lookup ttx s.cashFlows <;> simp only [hcf] at hs
      · injection hs with hs
        subst hs
        exact ⟨rfl, fun c hc => lookup_mapInsert_ne hc _ _,
          _, lookup_mapInsert_self _ _ _, Or.inl rfl⟩
      · split at hs
        · injection hs with hs
          subst hs
          refine ⟨rfl, fun c hc => ?_, _, lookup_mapInsert_self _ _ _,
            Or.inr (Or.inr (Or.inr (Or.inr ⟨_, rfl, rfl⟩)))⟩
          rw [lookup_mapInsert_ne hc, lookup_mapInsert_ne hc]
        · injection hs with hs
          subst hs
          exact ⟨rfl, fun c hc => lookup_mapInsert_ne hc _ _,
            _, lookup_mapInsert_self _ _ _, Or.inl rfl⟩

theorem step_locked_frozen {s : EState} {t : Transaction} {s' : EState} {c : Nat}
    {a : Account} (hl : List.lookup c s.accounts = some a) (hlock : a.locked = true)
    (hs : step s t = Except.ok s') : List.lookup c s'.accounts = some a := by
  by_cases hceq : c = t.client
  · subst hceq
    have ha : acctOf s t.client = a := by
      rw [acctOf, hl]
      rfl
    have hcond : (acctOf s t.client).locked = true := by
      rw [ha]
      exact hlock
    rw [step_locked s t hcond] at hs
    injection hs with hs
    subst hs
    rw [lookup_mapInsert_self, ha]
  · obtain ⟨-, hne, -⟩ := step_ok_cases hs
    rw [hne c hceq]
    exact hl

theorem foldlM_locked_frozen (ts : List Transaction) :
    ∀ (s s' : EState) (c : Nat) (a : Account),
      List.lookup c s.accounts = some a → a.locked = true →
      List.foldlM step s ts = Except.ok s' → List.lookup c s'.accounts = some a := by
  induction ts with
  | nil =>
    intro s s' c a hl hlock hfold
    rw [foldlM_step_nil] at hfold
    injection hfold with hfold
    subst hfold
    exact hl
  | cons t ts ih =>
    intro s s' c a hl hlock hfold
    rw [foldlM_step_cons] at hfold
    cases hstep : step s t with
    | error e =>
      rw [hstep] at hfold
      exact Except.noConfusion hfold
    | ok s1 =>
      rw [hstep] at hfold
      exact ih s1 s' c a (step_locked_frozen hl hlock hstep) hlock hfold

theorem step_lock_cause {s : EState} {t : Transaction} {s' : EState} {c : Nat}
    {a' : Account} (hs : step s t = Except.ok s')
    (hl' : List.lookup c s'.accounts = some a') (hlock' : a'.locked = true) :
    (∃ a, List.lookup c s.accounts = some a ∧ a.locked = true) ∨
      t.type = TransactionType.Chargeback := by
  obtain ⟨-, hne, anew, hself, hdisj⟩ := step_ok_cases hs
  by_cases hceq : c = t.client
  · subst hceq
    rw [hself] at hl'
    have hanew : anew = a' := Option.some.inj hl'
    subst hanew
    rcases hdisj with h0 | ⟨cf, hcf⟩ | ⟨cf, hcf⟩ | ⟨cf, hcf⟩ | ⟨cf, hcf, hty⟩
    · left
      apply acctOf_locked_cases
      rw [← h0]
      exact hlock'
    · left
      apply acctOf_locked_cases
      rw [← Account.insert_locked _ cf, ← hcf]
      exact hlock'
    · left
      apply acctOf_locked_cases
      have hdl : ((acctOf s t.client).dispute cf).locked = (acctOf s t.client).locked := rfl
      rw [← hdl, ← hcf]
      exact hlock'
    · left
      apply acctOf_locked_cases
      have hrl : ((acctOf s t.client).resolve cf).locked = (acctOf s t.client).locked := rfl
      rw [← hrl, ← hcf]
      exact hlock'
    · right
      exact hty
  · left
    rw [hne c hceq] at hl'
    exact ⟨a', hl', hlock'⟩

/-- Claim C3: once a client's account is locked (which only a Chargeback can
cause), every subsequent event leaves that account's entry — all of
`available`, `held`, `total`, `locked` — untouched for the remainder of the
run.  First conjunct: from any state where client `c`'s account is locked,
folding any remaining event list keeps `c` mapped to the very same account.
Second conjunct: a single step can only produce a locked account for a
client if it was already locked before, or the event is a Chargeback. -/
theorem c3_locked_account_frozen :
    (∀ (ts : List Transaction) (s s' : EState) (c : Nat) (a : Account),
      List.lookup c s.accounts = some a → a.locked = true →
      List.foldlM step s ts = Except.ok s' → List.lookup c s'.accounts = some a) ∧
    (∀ (s : EState) (t : Transaction) (s' : EState) (c : Nat) (a' : Account),
      step s t = Except.ok s' → List.lookup c s'.accounts = some a' →
      a'.locked = true →
      (∃ a, List.lookup c s.accounts = some a ∧ a.locked = true) ∨
        t.type = TransactionType.Chargeback) := by
  exact ⟨fun ts => foldlM_locked_frozen ts,
         fun s t s' c a' hs hl' hlock' => step_lock_cause hs hl' hlock'⟩

/-- Witness for C3: client 1 starts locked with balance 5; a later deposit
for client 1 is ignored — after the step the account is unchanged. -/
theorem c3_locked_account_frozen_witness :
    (⟨1, 5, 0, 5, true⟩ : Account).locked = true ∧
    List.lookup 1
      ({ accounts := [(1, ⟨1, 5, 0, 5, true⟩), (1, ⟨1, 5, 0, 5, true⟩)],
         cashFlows := [] } : EState).accounts = some ⟨1, 5, 0, 5, true⟩ := by
  refine ⟨rfl, ?_⟩
  exact c3_locked_account_frozen.1
    [⟨TransactionType.Deposit, 1, 2, some ⟨7, 0⟩⟩]
    { accounts := [(1, ⟨1, 5, 0, 5, true⟩)], cashFlows := [] }
    { accounts := [(1, ⟨1, 5, 0, 5, true⟩), (1, ⟨1, 5, 0, 5, true⟩)], cashFlows := [] }
    1 ⟨1, 5, 0, 5, true⟩ (by decide) rfl (by decide)

/-! ### Validation (claims C6 and C7) -/

theorem dedup_length_eq_iff {α : Type} [DecidableEq α] (l : List α) :
    l.dedup.length = l.length ↔ l.Nodup := by
  constructor
  · intro h
    rw [← List.dedup_eq_self]
    exact List.Sublist.eq_of_length (List.dedup_sublist l) h
  · intro h
    rw [List.dedup_eq_self.mpr h]

theorem validate_cond_iff (ts : List Transaction) :
    ((((ts.filter isDW).map (fun t => t.tx)).dedup).length = (ts.filter isDW).length) ↔
      ((ts.filter isDW).map (fun t => t.tx)).Nodup := by
  rw [← List.length_map (ts.filter isDW) (fun t => t.tx)]
  exact dedup_length_eq_iff _

theorem validate_ok_iff (ts : List Transaction) :
    validate_transactions ts = Except.ok () ↔
      ((ts.filter isDW).map (fun t => t.tx)).Nodup := by
  simp only [validate_transactions]
  split
  case isTrue hne =>
    exact iff_of_false (fun h => Except.noConfusion h)
      (fun hnd => hne ((validate_cond_iff ts).mpr hnd))
  case isFalse hne =>
    exact iff_of_true rfl ((validate_cond_iff ts).mp (not_ne_iff.mp hne))

theorem validate_dup (ts : List Transaction)
    (h : ¬ ((ts.filter isDW).map (fun t => t.tx)).Nodup) :
    validate_transactions ts = Except.error VError.notUnique := by
  simp only [validate_transactions]
  rw [if_pos]
  intro heq
  exact h ((validate_cond_iff ts).mp heq)

theorem run_eq_register (ts : List Transaction)
    (h : validate_transactions ts = Except.ok ()) :
    run ts = register_transactions_for_customers ts := by
  simp only [run, h]

theorem run_dup (ts : List Transaction)
    (h : ¬ ((ts.filter isDW).map (fun t => t.tx)).Nodup) :
    run ts = Except.error VError.notUnique := by
  simp only [run, validate_dup ts h]

/-- Claim C6: a duplicated `tx` among Deposit/Withdrawal events makes
validation fail and the whole run abort with the uniqueness error — no
account table is produced (`run` returns `Except.error` without ever
starting the engine) — while Dispute/Resolve/Chargeback events are excluded
from the uniqueness check: validation succeeds exactly when the
deposit/withdrawal `tx` values are pairwise distinct, whatever the other
events contain. -/
theorem c6_duplicate_tx_aborts (ts : List Transaction) :
    (validate_transactions ts = Except.ok () ↔
      ((ts.filter isDW).map (fun t => t.tx)).Nodup) ∧
    (¬ ((ts.filter isDW).map (fun t => t.tx)).Nodup →
      run ts = Except.error VError.notUnique) :=
  ⟨validate_ok_iff ts, fun h => run_dup ts h⟩

/-- Witness for C6: two deposits sharing `tx = 1` (with a dispute also on
`tx = 1`, exercising the exclusion) — the run aborts with the uniqueness
error. -/
theorem c6_duplicate_tx_aborts_witness :
    ¬ ((([⟨TransactionType.Deposit, 1, 1, some ⟨10, 0⟩⟩,
         ⟨TransactionType.Deposit, 1, 1, some ⟨10, 0⟩⟩,
         ⟨TransactionType.Dispute, 1, 1, none⟩] : List Transaction).filter
            isDW).map (fun t => t.tx)).Nodup ∧
    run [⟨TransactionType.Deposit, 1, 1, some ⟨10, 0⟩⟩,
         ⟨TransactionType.Deposit, 1, 1, some ⟨10, 0⟩⟩,
         ⟨TransactionType.Dispute, 1, 1, none⟩] = Except.error VError.notUnique := by
  refine ⟨by decide, ?_⟩
  exact (c6_duplicate_tx_aborts _).2 (by decide)

/-- Exactly the amounts `CashFlow::try_from` rejects: missing, negative
value, or stored scale above 4. -/
def badAmount (t : Transaction) : Bool :=
  match t.amount with
  | none => true
  | some v => decide (v.value < 0) || decide (4 < v.scale)

/-- The errors of the sources that name an offending transaction id: the
"value is missing" / "has a negative value" / "has a unsupported scale"
messages, each carrying `tx`. -/
def NamesTx (e : VError) (tx : Nat) : Prop :=
  e = VError.missingAmount tx ∨ e = VError.negativeAmount tx ∨
    e = VError.unsupportedScale tx

theorem isDW_types {t : Transaction} (h : isDW t = true) :
    t.type = TransactionType.Deposit ∨ t.type = TransactionType.Withdrawal := by
  cases hty : t.type <;> simp [isDW, hty] at h ⊢

theorem try_from_error_cases {t : Transaction} (hdw : isDW t = true) {e : VError}
    (he : CashFlow.try_from t = Except.error e) :
    NamesTx e t.tx ∧ badAmount t = true := by
  obtain ⟨ty, tc, ttx, tam⟩ := t
  cases tam with
  | none =>
    simp only [CashFlow.try_from] at he
    injection he with he
    subst he
    exact ⟨Or.inl rfl, rfl⟩
  | some v =>
    simp only [CashFlow.try_from] at he
    by_cases hok : 0 ≤ v.value ∧ v.scale ≤ 4
    · rw [if_pos hok] at he
      cases ty
      · exact Except.noConfusion he
      · exact Except.noConfusion he
      all_goals simp [isDW] at hdw
    · rw [if_neg hok] at he
      by_cases hsc : 4 < v.scale
      · rw [if_pos hsc] at he
        injection he with he
        subst he
        refine ⟨Or.inr (Or.inr rfl), ?_⟩
        simp [badAmount, hsc]
      · rw [if_neg hsc] at he
        injection he with he
        subst he
        have hneg : v.value < 0 := by
          rcases not_and_or.mp hok with h1 | h2
          · exact lt_of_not_le h1
          · exact absurd (Nat.le_of_not_lt hsc) h2
        exact ⟨Or.inr (Or.inl rfl), by simp [badAmount, hneg]⟩

theorem try_from_error_of_bad {t : Transaction} (hdw : isDW t = true)
    (hbad : badAmount t = true) : ∃ e, CashFlow.try_from t = Except.error e := by
  obtain ⟨ty, tc, ttx, tam⟩ := t
  cases tam with
  | none => exact ⟨_, rfl⟩
  | some v =>
    simp only [badAmount, Bool.or_eq_true, decide_eq_true_eq] at hbad
    have hcond : ¬ (0 ≤ v.value ∧ v.scale ≤ 4) := by
      rcases hbad with hneg | hsc
      · exact fun hc => absurd hc.1 (not_le.mpr hneg)
      · exact fun hc => absurd hc.2 (not_le.mpr hsc)
    simp only [CashFlow.try_from]
    rw [if_neg hcond]
    split
    · exact ⟨_, rfl⟩
    · exact ⟨_, rfl⟩

theorem except_bind_error {α β : Type} (e : VError) (g : α → Except VError β) :
    (Except.error e >>= g) = Except.error e := rfl

theorem except_bind_ok {α β : Type} (x : α) (g : α → Except VError β) :
    (Except.ok x >>= g) = g x := rfl

theorem mapM_ok_mem {α β : Type} (f : α → Except VError β) :
    ∀ (l : List α) (out : List β), l.mapM f = Except.ok out →
      ∀ x ∈ l, ∃ y, y ∈ out ∧ f x = Except.ok y := by
  intro l
  induction l with
  | nil =>
    intro out h x hx
    simp at hx
  | cons a l ih =>
    intro out h x hx
    rw [List.mapM_cons] at h
    cases hfa : f a with
    | error e =>
      rw [hfa, except_bind_error] at h
      exact Except.noConfusion h
    | ok y =>
      rw [hfa, except_bind_ok] at h
      cases hrest : l.mapM f with
      | error e =>
        rw [hrest, except_bind_error] at h
        exact Except.noConfusion h
      | ok ys =>
        rw [hrest, except_bind_ok] at h
        injection h with h
        subst h
        rcases List.mem_cons.mp hx with rfl | hxl
        · exact ⟨y, List.mem_cons_self _ _, hfa⟩
        · obtain ⟨y2, hy2, hfy2⟩ := ih ys hrest x hxl
          exact ⟨y2, List.mem_cons_of_mem _ hy2, hfy2⟩

theorem mapM_first_error {α β : Type} (f : α → Except VError β) :
    ∀ l : List α, (∃ x ∈ l, ∃ e, f x = Except.error e) →
      ∃ x ∈ l, ∃ e, f x = Except.error e ∧ l.mapM f = Except.error e := by
  intro l
  induction l with
  | nil =>
    rintro ⟨x, hx, -⟩
    simp at hx
  | cons a l ih =>
    rintro ⟨x, hx, e, hfe⟩
    cases hfa : f a with
    | error ea =>
      refine ⟨a, List.mem_cons_self a l, ea, hfa, ?_⟩
      rw [List.mapM_cons, hfa, except_bind_error]
    | ok y =>
      have hxl : x ∈ l := by
        rcases List.mem_cons.mp hx with rfl | hxl
        · rw [hfa] at hfe
          exact Except.noConfusion hfe
        · exact hxl
      obtain ⟨x2, hx2, e2, hfe2, hmap⟩ := ih ⟨x, hxl, e, hfe⟩
      refine ⟨x2, List.mem_cons_of_mem a hx2, e2, hfe2, ?_⟩
      rw [List.mapM_cons, hfa, except_bind_ok, hmap, except_bind_error]

theorem register_error_of_mapM {ts : List Transaction} {e : VError}
    (h : (ts.filter isDW).mapM CashFlow.try_from = Except.error e) :
    register_transactions_for_customers ts = Except.error e := by
  simp only [register_transactions_for_customers, h]

/-- Counterexample to C7 as stated: the input `[Deposit(1,1,no amount),
Deposit(1,1,0)]` has a deposit with a missing amount, yet the run's error is
the validation uniqueness error (the duplicate `tx` check fires first),
which names no transaction — not one of the three amount errors naming the
offending `tx = 1`. -/
theorem c7_counterexample_uniqueness_preempts :
    badAmount (⟨TransactionType.Deposit, 1, 1, none⟩ : Transaction) = true ∧
    run [⟨TransactionType.Deposit, 1, 1, none⟩,
         ⟨TransactionType.Deposit, 1, 1, some ⟨0, 0⟩⟩] =
      Except.error VError.notUnique ∧
    ¬ NamesTx VError.notUnique 1 := by
  refine ⟨rfl, by decide, ?_⟩
  unfold NamesTx
  decide

/-- Claim C7 (amended): if some Deposit/Withdrawal event has a missing,
negative, or over-scaled amount, the run returns an error and the engine
never mutates an account (the returned value is `Except.error`, produced
before the event loop); when the input also passes the `tx`-uniqueness check
the error is one of the three descriptive errors naming an offending `tx`
(the first offending event's, following the source's fail-fast order). -/
theorem c7_bad_amount_aborts (ts : List Transaction)
    (hbad : ∃ t ∈ ts, isDW t = true ∧ badAmount t = true) :
    (∃ e, run ts = Except.error e) ∧
    (((ts.filter isDW).map (fun t => t.tx)).Nodup →
      ∃ e tx, run ts = Except.error e ∧ NamesTx e tx ∧
        ∃ t ∈ ts, isDW t = true ∧ t.tx = tx ∧ badAmount t = true) := by
  obtain ⟨t0, ht0, hdw0, hbad0⟩ := hbad
  have ht0f : t0 ∈ ts.filter isDW := List.mem_filter.mpr ⟨ht0, hdw0⟩
  obtain ⟨x, hxf, e, hxe, hmapM⟩ :=
    mapM_first_error CashFlow.try_from (ts.filter isDW)
      ⟨t0, ht0f, try_from_error_of_bad hdw0 hbad0⟩
  have hxts : x ∈ ts := (List.mem_filter.mp hxf).1
  have hxdw : isDW x = true := (List.mem_filter.mp hxf).2
  obtain ⟨hnames, hxbad⟩ := try_from_error_cases hxdw hxe
  have hreg := register_error_of_mapM hmapM
  constructor
  · by_cases hnd : ((ts.filter isDW).map (fun t => t.tx)).Nodup
    · refine ⟨e, ?_⟩
      rw [run_eq_register ts ((validate_ok_iff ts).mpr hnd)]
      exact hreg
    · exact ⟨VError.notUnique, run_dup ts hnd⟩
  · intro hnd
    refine ⟨e, x.tx, ?_, hnames, x, hxts, hxdw, rfl, hxbad⟩
    rw [run_eq_register ts ((validate_ok_iff ts).mpr hnd)]
    exact hreg

/-- Witness for C7 (amended): a single deposit with no amount; the run fails
with an error, and since the `tx` values are unique it is a descriptive
error naming the offending transaction. -/
theorem c7_bad_amount_aborts_witness :
    (∃ t ∈ ([⟨TransactionType.Deposit, 1, 1, none⟩] : List Transaction),
      isDW t = true ∧ badAmount t = true) ∧
    (∃ e, run [⟨TransactionType.Deposit, 1, 1, none⟩] = Except.error e) ∧
    (∃ e tx, run [⟨TransactionType.Deposit, 1, 1, none⟩] = Except.error e ∧
      NamesTx e tx ∧
      ∃ t ∈ ([⟨TransactionType.Deposit, 1, 1, none⟩] : List Transaction),
        isDW t = true ∧ t.tx = tx ∧ badAmount t = true) := by
  have hbad : ∃ t ∈ ([⟨TransactionType.Deposit, 1, 1, none⟩] : List Transaction),
      isDW t = true ∧ badAmount t = true :=
    ⟨⟨TransactionType.Deposit, 1, 1, none⟩, by simp, rfl, rfl⟩
  have h := c7_bad_amount_aborts _ hbad
  exact ⟨hbad, h.1, h.2 (by decide)⟩

/-! ### Insufficient-funds withdrawals (claim C8) -/

theorem Account.insert_skip {a : Account} {cf : CashFlow}
    (hcft : cf.type = CashFlowType.Withdrawal) (hlt : a.available < cf.amount) :
    a.insert cf = a := by
  simp only [Account.insert, Account.withdraw, hcft, if_neg (not_le.mpr hlt)]

/-- Claim C8: a Withdrawal event on an unlocked account whose cash-flow
amount exceeds the available funds is silently ignored — the step succeeds
(no error, processing continues) and the client's account keeps exactly its
previous `available`/`held`/`total`/`locked`, with the cash-flow table also
untouched; and the concrete Scenario D run, a single `Withdrawal(1,1,10)`
with no prior deposit, yields `Account{1, 0, 0, 0, unlocked}`. -/
theorem c8_insufficient_withdrawal_ignored :
    (∀ (s : EState) (t : Transaction) (cf : CashFlow),
      t.type = TransactionType.Withdrawal →
      List.lookup t.tx s.cashFlows = some cf →
      cf.type = CashFlowType.Withdrawal →
      (acctOf s t.client).locked = false →
      (acctOf s t.client).available < cf.amount →
      (step s t).map (fun st => (List.lookup t.client st.accounts, st.cashFlows)) =
        Except.ok (some (acctOf s t.client), s.cashFlows)) ∧
    (run [⟨TransactionType.Withdrawal, 1, 1, some ⟨10, 0⟩⟩]).map
        (fun m => List.lookup 1 m) = Except.ok (some ⟨1, 0, 0, 0, false⟩) := by
  constructor
  · intro s t cf hty hcf hcft hlock hlt
    have hins : (acctOf s t.client).insert cf = acctOf s t.client :=
      Account.insert_skip hcft hlt
    have hstep : step s t = Except.ok
        { accounts := mapInsert (mapInsert s.accounts t.client (acctOf s t.client))
            t.client (acctOf s t.client),
          cashFlows := s.cashFlows } := by
      simp only [step, hty, hcf]
      rw [if_neg (by simp [hlock])]
      rw [hins]
    rw [hstep]
    simp only [Except.map]
    rw [lookup_mapInsert_self]
  · decide

/-- Witness for C8: client 1 has 3 available, the stored withdrawal cash
flow `tx = 2` asks for 5; the step leaves the account untouched. -/
theorem c8_insufficient_withdrawal_ignored_witness :
    (acctOf { accounts := [(1, ⟨1, 3, 0, 3, false⟩)],
              cashFlows := [(2, ⟨CashFlowType.Withdrawal, 1, 2, 5, false⟩)] } 1).available
        < (5 : ℚ) ∧
    (step { accounts := [(1, ⟨1, 3, 0, 3, false⟩)],
            cashFlows := [(2, ⟨CashFlowType.Withdrawal, 1, 2, 5, false⟩)] }
        ⟨TransactionType.Withdrawal, 1, 2, none⟩).map
      (fun st => (List.lookup 1 st.accounts, st.cashFlows)) =
      Except.ok
        (some (acctOf { accounts := [(1, ⟨1, 3, 0, 3, false⟩)],
                        cashFlows := [(2, ⟨CashFlowType.Withdrawal, 1, 2, 5, false⟩)] } 1),
         [(2, ⟨CashFlowType.Withdrawal, 1, 2, 5, false⟩)]) := by
  refine ⟨by decide, ?_⟩
  exact c8_insufficient_withdrawal_ignored.1 _
    ⟨TransactionType.Withdrawal, 1, 2, none⟩ ⟨CashFlowType.Withdrawal, 1, 2, 5, false⟩
    rfl (by decide) rfl (by decide) (by decide)

/-! ### The cash-flow table is built before the event loop (claim C10) -/

theorem try_from_ok_tx {t : Transaction} {cf : CashFlow}
    (h : CashFlow.try_from t = Except.ok cf) : cf.tx = t.tx := by
  obtain ⟨ty, tc, ttx, tam⟩ := t
  cases tam with
  | none =>
    simp only [CashFlow.try_from] at h
    exact Except.noConfusion h
  | some v =>
    simp only [CashFlow.try_from] at h
    by_cases hok : 0 ≤ v.value ∧ v.scale ≤ 4
    · rw [if_pos hok] at h
      cases ty
      · injection h with h
        subst h
        rfl
      · injection h with h
        subst h
        rfl
      all_goals exact Except.noConfusion h
    · rw [if_neg hok] at h
      split at h <;> exact Except.noConfusion h

theorem buildHm_aux :
    ∀ (cfs : List CashFlow) (m : List (Nat × CashFlow)) (k : Nat),
      (k ∈ cfs.map (fun cf => cf.tx) ∨
        ∃ cf, List.lookup k m = some cf ∧ cf.tx = k) →
      ∃ cf, List.lookup k (cfs.foldl (fun m2 cf => mapInsert m2 cf.tx cf) m) = some cf ∧
        cf.tx = k := by
  intro cfs
  induction cfs with
  | nil =>
    intro m k h
    rcases h with h | h
    · simp at h
    · simpa using h
  | cons c cs ih =>
    intro m k h
    rw [List.foldl_cons]
    apply ih
    rcases h with hmem | ⟨cf, hcf, htx⟩
    · rw [List.map_cons] at hmem
      rcases List.mem_cons.mp hmem with heq | hmem2
      · right
        subst heq
        exact ⟨c, lookup_mapInsert_self _ _ _, rfl⟩
      · left
        exact hmem2
    · by_cases hk : k = c.tx
      · right
        subst hk
        exact ⟨c, lookup_mapInsert_self _ _ _, rfl⟩
      · right
        refine ⟨cf, ?_, htx⟩
        rw [lookup_mapInsert_ne hk]
        exact hcf

/-- Claim C10: once the up-front conversion of all Deposit/Withdrawal events
succeeds, the cash-flow table keyed by `tx` (built before the event loop
ever touches an account) has an entry for every such event — including
withdrawals the loop will later skip for insufficient funds — and hence a
Dispute can reference a skipped withdrawal: concretely,
`Withdrawal(1,1,10)` with no funds followed by `Dispute(1,1)` moves the 10
from `available` to `held` (yielding available −10, held 10, total 0) even
though the withdrawal itself never changed the balance. -/
theorem c10_cash_flows_registered_upfront :
    (∀ (ts : List Transaction) (cfs : List CashFlow),
      (ts.filter isDW).mapM CashFlow.try_from = Except.ok cfs →
      ∀ t ∈ ts, isDW t = true →
        ∃ cf, List.lookup t.tx (buildHm cfs) = some cf ∧ cf.tx = t.tx) ∧
    (run [⟨TransactionType.Withdrawal, 1, 1, some ⟨10, 0⟩⟩,
          ⟨TransactionType.Dispute, 1, 1, none⟩]).map (fun m => List.lookup 1 m) =
      Except.ok (some ⟨1, -10, 10, 0, false⟩) := by
  constructor
  · intro ts cfs hmap t ht hdw
    obtain ⟨cf, hcfmem, hok⟩ :=
      mapM_ok_mem CashFlow.try_from (ts.filter isDW) cfs hmap t
        (List.mem_filter.mpr ⟨ht, hdw⟩)
    apply buildHm_aux cfs [] t.tx
    left
    exact List.mem_map.mpr ⟨cf, hcfmem, try_from_ok_tx hok⟩
  · decide

/-- Witness for C10: a single withdrawal list whose conversion yields one
cash flow; the table then has an entry under its `tx`. -/
theorem c10_cash_flows_registered_upfront_witness :
    (([⟨TransactionType.Withdrawal, 1, 1, some ⟨10, 0⟩⟩] :
        List Transaction).filter isDW).mapM CashFlow.try_from =
      Except.ok [⟨CashFlowType.Withdrawal, 1, 1, 10, false⟩] ∧
    ∃ cf, List.lookup 1 (buildHm [⟨CashFlowType.Withdrawal, 1, 1, 10, false⟩]) =
      some cf ∧ cf.tx = 1 := by
  refine ⟨by decide, ?_⟩
  exact c10_cash_flows_registered_upfront.1
    [⟨TransactionType.Withdrawal, 1, 1, some ⟨10, 0⟩⟩]
    [⟨CashFlowType.Withdrawal, 1, 1, 10, false⟩] (by decide)
    ⟨TransactionType.Withdrawal, 1, 1, some ⟨10, 0⟩⟩ (by simp) rfl

/-! ### The dispute flag is never mutated: claims C2, C4, C5, C9.

The engine's Dispute arm only calls `account.dispute(cf)` (engine.rs:77),
which takes the cash flow by shared reference; no code path ever calls the
`CashFlow::under_dispute` setter (domain.rs:26-28), so `under_dispute` stays
`false` forever and Resolve/Chargeback (which require it to be `true`) can
never fire after a Dispute.  This contradicts the repository's own tests
`test_resolve_dispute` and `test_handle_chargeback` (engine.rs:220-262),
whose expected outputs require the Dispute→Resolve/Chargeback lifecycle to
progress.  The theorems below evaluate the embedded code at those failing
inputs. -/

/-- Claim C2 fails on the code: after `Deposit(1,1,10); Dispute(1,1)` the
account did move 10 from available to held, but the cash flow's
`under_dispute` flag is still `false` — the Dispute arm never sets it.  (The
spec and the repo's own `test_resolve_dispute` require it to become true so
that a Resolve can later fire.) -/
theorem c2_dispute_never_sets_under_dispute :
    (List.foldlM step
        { accounts := [],
          cashFlows := [(1, ⟨CashFlowType.Deposit, 1, 1, 10, false⟩)] }
        [⟨TransactionType.Deposit, 1, 1, some ⟨10, 0⟩⟩,
         ⟨TransactionType.Dispute, 1, 1, none⟩]).map
      (fun st => (List.lookup 1 st.accounts, List.lookup 1 st.cashFlows)) =
      Except.ok (some ⟨1, 0, 10, 10, false⟩,
                 some ⟨CashFlowType.Deposit, 1, 1, 10, false⟩) := by
  decide

/-- Claim C4 fails on the code: `Deposit(1,1,10); Dispute(1,1); Resolve(1,1)`
— the repo's own `test_resolve_dispute` input — does not restore the
pre-dispute account `{1, 10, 0, 10, unlocked}`: because the dispute never
set `under_dispute`, the resolve is skipped and the run ends at
`{1, 0, 10, 10, unlocked}`. -/
theorem c4_resolve_does_not_round_trip :
    (run [⟨TransactionType.Deposit, 1, 1, some ⟨10, 0⟩⟩,
          ⟨TransactionType.Dispute, 1, 1, none⟩,
          ⟨TransactionType.Resolve, 1, 1, none⟩]).map (fun m => List.lookup 1 m) =
      Except.ok (some ⟨1, 0, 10, 10, false⟩) ∧
    (⟨1, 0, 10, 10, false⟩ : Account) ≠ ⟨1, 10, 0, 10, false⟩ := by
  decide

/-- Claim C5 partly fails on the code: on a state whose cash flow is under
dispute, a Chargeback does debit `held` and `total` by the amount and lock
the account (allowing negatives, as claimed), but it leaves `under_dispute`
as `true` — the code never resets it to `false` as the claim (and the spec's
`true→false` toggle) requires. -/
theorem c5_chargeback_leaves_flag_true :
    (step { accounts := [(1, ⟨1, 0, 10, 10, false⟩)],
            cashFlows := [(1, ⟨CashFlowType.Deposit, 1, 1, 10, true⟩)] }
        ⟨TransactionType.Chargeback, 1, 1, none⟩).map
      (fun st => (List.lookup 1 st.accounts, List.lookup 1 st.cashFlows)) =
      Except.ok (some ⟨1, 0, 0, 0, true⟩,
                 some ⟨CashFlowType.Deposit, 1, 1, 10, true⟩) := by
  decide

/-- Claim C9 fails on the code: after a first successful
`Dispute(1,1)` the flag is still `false`, so a second `Dispute(1,1)` is not
skipped — it debits `available` and credits `held` again, ending at
`{1, −10, 20, 10, unlocked}` instead of leaving the post-first-dispute
account `{1, 0, 10, 10, unlocked}` unchanged. -/
theorem c9_replayed_dispute_applies_twice :
    (run [⟨TransactionType.Deposit, 1, 1, some ⟨10, 0⟩⟩,
          ⟨TransactionType.Dispute, 1, 1, none⟩,
          ⟨TransactionType.Dispute, 1, 1, none⟩]).map (fun m => List.lookup 1 m) =
      Except.ok (some ⟨1, -10, 20, 10, false⟩) ∧
    (⟨1, -10, 20, 10, false⟩ : Account) ≠ ⟨1, 0, 10, 10, false⟩ := by
  decide

end PaymentsEngine
